import Mathlib

/-!
Shallow embedding of the Siemens gateway's tag-management subsystem
(`gateway/plc/tags_manager.py`, `gateway/plc/monitor.py`,
`gateway/plc/client.py`, `gateway/plc_api/app/routes/plc.py`) together
with proofs about the claims of the specification.

Modelling conventions:
- Python byte values are `Nat` (with explicit `< 256` bounds where overflow
  matters); byte buffers are `List Nat`.
- Fallible Python code (exceptions) is modelled with `Option` / `Except`.
- Python floats are opaque in this model: a decoded `real`/`lreal` value is
  represented by the raw big-endian bytes it was decoded from.  No claim
  depends on float arithmetic or float equality corner cases.
- The PLC client is an oracle: reads are a function returning
  `Option (List Nat)` (`none` models the client's failure result, which the
  manager observes as an exception), writes are a function returning `Bool`
  whose result the manager may or may not inspect, exactly as in the source.
-/

namespace Gateway

/-- GBK code unit as stored in a byte string: either a single-byte
(ASCII range) character or a two-byte (lead, trail) character. -/
inductive GChar where
  | ascii (b : Nat)
  | wide (b1 b2 : Nat)
deriving DecidableEq, BEq

/-- Valid GBK trail byte: `0x40..0xFE` excluding `0x7F`. -/
def validTrail (b : Nat) : Bool :=
  decide (0x40 ≤ b ∧ b ≤ 0xFE ∧ b ≠ 0x7F)

/-- A structurally valid GBK character: single bytes are `< 0x80`,
lead bytes are `0x81..0xFE`, trail bytes are valid. -/
def GChar.valid : GChar → Bool
  | .ascii b => decide (b < 0x80)
  | .wide b1 b2 => decide (0x81 ≤ b1 ∧ b1 ≤ 0xFE) && validTrail b2

/-- A GBK-encodable string is a list of valid GBK characters. -/
def ValidGbk (s : List GChar) : Bool := s.all GChar.valid

/-- Byte image of one GBK character (`str.encode('gbk')`, per character). -/
def gbkEncodeChar : GChar → List Nat
  | .ascii b => [b]
  | .wide b1 b2 => [b1, b2]

/-- `str.encode('gbk')`: concatenation of the characters' byte images. -/
def gbkEncode (s : List GChar) : List Nat :=
  s.flatMap gbkEncodeChar

/-- `bytes.decode('gbk')`: parse a byte string into GBK characters;
`none` models `UnicodeDecodeError` (dangling lead byte or invalid byte). -/
def gbkDecode : List Nat → Option (List GChar)
  | [] => some []
  | [b] => if b < 0x80 then some [GChar.ascii b] else none
  | b :: b2 :: rest =>
    if b < 0x80 then
      (gbkDecode (b2 :: rest)).map (GChar.ascii b :: ·)
    else if (decide (0x81 ≤ b ∧ b ≤ 0xFE) && validTrail b2) = true then
      (gbkDecode rest).map (GChar.wide b b2 :: ·)
    else
      none

/-- Runtime values as the gateway passes them around (`Any` in the source).
`vFloat` carries the raw big-endian byte image of the float. -/
inductive Value where
  | vNone
  | vBool (b : Bool)
  | vInt (n : Int)
  | vFloat (bs : List Nat)
  | vStr (s : List GChar)
  | vBytes (bs : List Nat)
deriving DecidableEq, BEq

/-- Numeric view used by Python `==` across `bool`/`int`
(`True == 1` holds in Python since `bool` is an `int` subtype). -/
def pyNum : Value → Option Int
  | .vBool b => some (if b then 1 else 0)
  | .vInt n => some n
  | _ => none

/-- Python equality (`==`) on the modelled value universe.  Floats are
compared on their byte image (no claim exercises float equality). -/
def pyEq : Value → Value → Bool
  | .vNone, .vNone => true
  | .vStr s, .vStr t => s == t
  | .vBytes a, .vBytes b => a == b
  | .vFloat a, .vFloat b => a == b
  | a, b =>
    match pyNum a, pyNum b with
    | some x, some y => x == y
    | _, _ => false

/-- Python truthiness (`if value:`) on the modelled value universe. -/
def pyTruthy : Value → Bool
  | .vNone => false
  | .vBool b => b
  | .vInt n => n != 0
  | .vFloat _ => true
  | .vStr s => s != []
  | .vBytes bs => bs != []

/-- `isinstance(v, bool)`. -/
def Value.isBool : Value → Bool
  | .vBool _ => true
  | _ => false

/-! ## Edge monitor (`gateway/plc/monitor.py`) -/

/-- Queue key of an enqueued event: `EdgeType.RISING/FALLING/BOTH` or the
plain `"change"` key of `VariableMonitor._event_queue` entries. -/
inductive EventKey where
  | rising
  | falling
  | both
  | change
deriving DecidableEq, BEq

/-- Edge type carried inside a `VariableEvent` (`EdgeType` enum). -/
inductive EdgeKind where
  | rising
  | falling
  | both
deriving DecidableEq, BEq

/-- `VariableEvent` (without the wall-clock timestamp, which is not
modelled). -/
structure VariableEvent where
  variable_name : String
  old_value : Value
  new_value : Value
  edge_type : Option EdgeKind
deriving DecidableEq, BEq

/-- One entry of the monitor's event queue: `(event_type, event)`. -/
abbrev QueueEntry := EventKey × VariableEvent

/-- `VariableMonitor` state: the stored value and the queue contents (the
consumer thread only drains the queue; enqueue order is what the claims
are about). -/
structure Monitor where
  name : String
  value : Value
  events : List QueueEntry
deriving DecidableEq, BEq

/-- `VariableMonitor._detect_change`: enqueue a change event, then — iff
both values are `bool` — the matching edge events. -/
def detectChange (name : String) (oldV newV : Value) : List QueueEntry :=
  let changeEv : VariableEvent := ⟨name, oldV, newV, none⟩
  [(EventKey.change, changeEv)] ++
    (match oldV, newV with
     | .vBool false, .vBool true =>
       let ev : VariableEvent := ⟨name, oldV, newV, some EdgeKind.rising⟩
       [(EventKey.rising, ev), (EventKey.both, ev)]
     | .vBool true, .vBool false =>
       let ev : VariableEvent := ⟨name, oldV, newV, some EdgeKind.falling⟩
       [(EventKey.falling, ev), (EventKey.both, ev)]
     | _, _ => [])

/-- `VariableMonitor.value` setter: store the new value, and when it
differs (`!=`) from the old one, enqueue the detected events. -/
def monitorSetValue (m : Monitor) (newV : Value) : Monitor :=
  let oldV := m.value
  if pyEq oldV newV then
    { m with value := newV }
  else
    { m with value := newV, events := m.events ++ detectChange m.name oldV newV }

/-! ## Tags (`gateway/plc/tags_manager.py`) -/

/-- `data_type` of a tag declaration. -/
inductive DataType where
  | bool
  | int
  | dint
  | real
  | lreal
  | string
deriving DecidableEq, BEq

/-- `DBPLCTag`: declaration fields plus the mutable state
(`_value`, `_pending_write_value`, `_last_update_time`) and the monitor. -/
structure Tag where
  tagpath : String
  db_number : Nat
  start_offset : Nat
  size : Nat
  data_type : DataType
  bit_index : Option Nat
  value : Value
  pending : Option Value
  last_update_time : Nat
  monitor : Monitor
deriving DecidableEq, BEq

/-- `DBPLCTag.value` setter: store, stamp the update time, and forward the
new value to the monitor. -/
def tagSetValue (t : Tag) (v : Value) (now : Nat) : Tag :=
  { t with value := v, last_update_time := now,
           monitor := monitorSetValue t.monitor v }

/-- One PLC I/O transaction issued by the manager. -/
inductive IOEvent where
  | readBytes (db off size : Nat)
  | writeBytes (db off : Nat) (data : List Nat)
  | syncWrite (db off : Nat) (dt : DataType)
deriving DecidableEq, BEq

/-! ## Byte-level helpers -/

/-- Python list/bytearray slice `l[a:b]` (indices clamped, never raising). -/
def pySlice (l : List Nat) (a b : Nat) : List Nat :=
  (l.take b).drop a

/-- Python slice assignment `l[a:b] = repl` (indices clamped; inserting
past the end appends). -/
def pySliceAssign (l : List Nat) (a b : Nat) (repl : List Nat) : List Nat :=
  let a' := min a l.length
  let b' := min (max b a') l.length
  l.take a' ++ repl ++ l.drop b'

/-- `min` of a nonempty Python int list (0 on empty, unreached). -/
def listMin : List Nat → Nat
  | [] => 0
  | x :: xs => xs.foldl Nat.min x

/-- `max` of a nonempty Python int list (0 on empty, unreached). -/
def listMax : List Nat → Nat
  | [] => 0
  | x :: xs => xs.foldl Nat.max x

/-- `DBPLCTagManager._set_bool_in_bytearray`: `data[off] |= 1 << k` or
`data[off] &= ~(1 << k)`.  `none` models the exceptions a real `bytearray`
raises: index out of range, or storing a value above 255 (possible only
when setting a bit index ≥ 8). -/
def setBoolInBytearray (data : List Nat) (off k : Nat) (v : Bool) :
    Option (List Nat) :=
  if off < data.length then
    let b := data.getD off 0
    let b' := if v then b ||| (1 <<< k) else b &&& (255 ^^^ (1 <<< k))
    if b' ≤ 255 then some (data.set off b') else none
  else none

/-! ## Typed codecs (`snap7.util` getters/setters as used by the manager) -/

/-- Big-endian signed 16-bit decode of the first two bytes
(`snap7.util.get_int`). -/
def toInt16 (b0 b1 : Nat) : Int :=
  let m := (b0 % 256) * 256 + b1 % 256
  if m < 32768 then (m : Int) else (m : Int) - 65536

/-- Big-endian signed 32-bit decode (`snap7.util.get_dint`). -/
def toInt32 (b0 b1 b2 b3 : Nat) : Int :=
  let m := ((b0 % 256) * 256 + b1 % 256) * 65536 + (b2 % 256) * 256 + b3 % 256
  if m < 2147483648 then (m : Int) else (m : Int) - 4294967296

/-- Big-endian signed 16-bit encode (`snap7.util.set_int`); `none` models
`struct.error` on a value outside the `>h` range or a non-integer value
(Python `bool` packs as 0/1). -/
def encInt : Value → Option (List Nat)
  | .vInt n =>
    if -32768 ≤ n ∧ n < 32768 then
      let m := (n + 65536).toNat % 65536
      some [m / 256, m % 256]
    else none
  | .vBool b => some [0, if b then 1 else 0]
  | _ => none

/-- Big-endian signed 32-bit encode (`snap7.util.set_dint`). -/
def encDint : Value → Option (List Nat)
  | .vInt n =>
    if -2147483648 ≤ n ∧ n < 2147483648 then
      let m := (n + 4294967296).toNat % 4294967296
      some [m / 16777216 % 256, m / 65536 % 256, m / 256 % 256, m % 256]
    else none
  | .vBool b => some [0, 0, 0, if b then 1 else 0]
  | _ => none

/-- `snap7.util.set_real`: floats are opaque in the model, so encoding a
float value reproduces its 4-byte big-endian image; anything else fails. -/
def encReal : Value → Option (List Nat)
  | .vFloat bs => if bs.length = 4 then some bs else none
  | _ => none

/-- `snap7.util.set_lreal`: 8-byte variant of `encReal`. -/
def encLReal : Value → Option (List Nat)
  | .vFloat bs => if bs.length = 8 then some bs else none
  | _ => none

/-- String payload production of the write flush
(`DBPLCTagManager.write_pending_tags`, string branch): GBK-encode; if the
byte length exceeds `size`, truncate to `size` and re-encode through a
decode; if that decode fails (split multibyte character), drop one more
byte and retry; a second decode failure propagates as an exception
(`none`). -/
def truncateGbk (s : List GChar) (size : Nat) : Option (List Nat) :=
  let bs := gbkEncode s
  if bs.length ≤ size then some bs
  else
    let truncated := bs.take size
    match gbkDecode truncated with
    | some u => some (gbkEncode u)
    | none =>
      match gbkDecode truncated.dropLast with
      | some u => some (gbkEncode u)
      | none => none

/-- Siemens string buffer built by the write flush: byte 0 = declared max
length, byte 1 = actual length, payload, zero fill.  `none` models the
`bytearray` range error when `size > 255`, or a `truncateGbk` failure. -/
def buildStringBuffer (size : Nat) (s : List GChar) : Option (List Nat) :=
  match truncateGbk s size with
  | none => none
  | some payload =>
    if size ≤ 255 then
      some ([size, payload.length] ++ payload ++
            List.replicate (size - payload.length) 0)
    else none

/-! ## Grouping and range computation -/

/-- Insertion-ordered key set of a Python dict build. -/
def insertKey (ks : List Nat) (db : Nat) : List Nat :=
  if db ∈ ks then ks else ks ++ [db]

/-- The `db_number` keys of `DBPLCTagManager._group_tags_by_db`, in first-
occurrence order (Python dict insertion order). -/
def dbKeys (tags : List Tag) : List Nat :=
  tags.foldl (fun ks t => insertKey ks t.db_number) []

/-- `DBPLCTagManager._group_tags_by_db`: tags grouped by `db_number`; each
group lists its tags in encounter order. -/
def groupTagsByDb (tags : List Tag) : List (Nat × List Tag) :=
  (dbKeys tags).map (fun db => (db, tags.filter (fun t => t.db_number == db)))

/-- Effective end offset of one tag as used by
`DBPLCTagManager._calculate_read_range`: `start_offset + size - 1` for
non-string tags, `start_offset + size + 1` for string tags. -/
def effectiveEnd (t : Tag) : Nat :=
  if t.data_type != DataType.string then t.start_offset + t.size - 1
  else t.start_offset + t.size + 1

/-- `DBPLCTagManager._calculate_read_range` (also used as the write
range): `(min start_offset, max effectiveEnd)` over the group. -/
def calcReadRange (tags : List Tag) : Nat × Nat :=
  (listMin (tags.map (fun t => t.start_offset)),
   listMax (tags.map effectiveEnd))

/-- A PLC read oracle: `readDB_Byte` as seen by the manager — either the
block's bytes or a failure (the client returns `(False, None)`, which the
manager observes as an exception when it subscripts `None`). -/
abbrev ReadFn := Nat → Nat → Nat → Option (List Nat)

/-- A PLC block-write oracle: `writeDB_Byte` as seen by the manager — a
success flag (the client catches its own exceptions). -/
abbrev WriteFn := Nat → Nat → List Nat → Bool

/-! ## Batch read sweep (`DBPLCTagManager.read_all_tags`) -/

/-- Per-tag decode step of `read_all_tags`.  `.ok` carries the value that
the sweep assigns to the tag — including the fallbacks the source produces
on a caught decode error (`None` for bool/int/dint/real/lreal, the raw
bytes for a string that fails GBK decoding twice, the raw slice for a bool
without `bit_index`).  `.error` models the one uncaught exception in the
loop: indexing `buffer[1]` of a string tag whose 2-byte header lies outside
the fetched block. -/
def decodeTagValue (data : List Nat) (start : Nat) (t : Tag) :
    Except Unit Value :=
  let rel := t.start_offset - start
  let tagData := pySlice data rel (rel + t.size)
  match t.data_type, t.bit_index with
  | .bool, some k =>
    match tagData.head? with
    | some b => .ok (.vBool ((b % 256) &&& (1 <<< k) == 1 <<< k))
    | none => .ok .vNone
  | .bool, none => .ok (.vBytes tagData)
  | .int, _ =>
    match tagData with
    | b0 :: b1 :: _ => .ok (.vInt (toInt16 b0 b1))
    | _ => .ok .vNone
  | .dint, _ =>
    match tagData with
    | b0 :: b1 :: b2 :: b3 :: _ => .ok (.vInt (toInt32 b0 b1 b2 b3))
    | _ => .ok .vNone
  | .real, _ =>
    if 4 ≤ tagData.length then .ok (.vFloat (tagData.take 4)) else .ok .vNone
  | .lreal, _ =>
    if 8 ≤ tagData.length then .ok (.vFloat (tagData.take 8)) else .ok .vNone
  | .string, _ =>
    let buffer := pySlice data rel (rel + t.size + 2)
    match buffer.get? 1 with
    | none => .error ()
    | some actualLen =>
      let stringBytes := pySlice buffer 2 (2 + actualLen)
      match gbkDecode stringBytes with
      | some u => .ok (.vStr u)
      | none =>
        match gbkDecode stringBytes.dropLast with
        | some u => .ok (.vStr u)
        | none => .ok (.vBytes stringBytes)

/-- Value carried by a successful decode step (`.vNone` on error; used
only to state theorems about tags whose decode step did not raise). -/
def okValue : Except Unit Value → Value
  | .ok v => v
  | .error _ => Value.vNone

/-- The per-group decode loop of `read_all_tags`.  Returns the updated
tags processed so far, the unprocessed remainder (nonempty only when the
uncaught string-header exception fired), the per-tag results gathered, and
a success flag. -/
def decodeLoop (data : List Nat) (start now : Nat) :
    List Tag → List Tag × List Tag × List (String × Value) × Bool
  | [] => ([], [], [], true)
  | t :: ts =>
    match decodeTagValue data start t with
    | .error _ => ([], t :: ts, [], false)
    | .ok v =>
      let t' := tagSetValue t v now
      let (done, rest, res, ok) := decodeLoop data start now ts
      (t' :: done, rest, (t.tagpath, v) :: res, ok)

/-- One group of `read_all_tags`: compute the covering range, issue the
single block read, then decode tag by tag.  On a failed block read, or on
an uncaught exception mid-loop, every tag of the group is reported as
`None`; tags updated before an exception keep their new values. -/
def readGroup (db : Nat) (gtags : List Tag) (readFn : ReadFn) (now : Nat) :
    List Tag × List (String × Value) × List IOEvent :=
  let r := calcReadRange gtags
  let readSize := r.2 - r.1 + 1
  let ev := IOEvent.readBytes db r.1 readSize
  match readFn db r.1 readSize with
  | none => (gtags, gtags.map (fun t => (t.tagpath, Value.vNone)), [ev])
  | some data =>
    match decodeLoop data r.1 now gtags with
    | (done, rest, res, ok) =>
      if ok then (done, res, [ev])
      else (done ++ rest, gtags.map (fun t => (t.tagpath, Value.vNone)), [ev])

/-- Merge per-group updated tags back into the full registry list (the
source mutates shared tag objects; tag paths are dict keys, hence
unique). -/
def mergeTags (tags updated : List Tag) : List Tag :=
  tags.map (fun t => (updated.find? (fun u => u.tagpath == t.tagpath)).getD t)

/-- `DBPLCTagManager.read_all_tags`: group by data block, one block read
per group, decode and assign every tag, collect the result map and the
I/O trace. -/
def readAllTags (tags : List Tag) (readFn : ReadFn) (now : Nat) :
    List Tag × List (String × Value) × List IOEvent :=
  let groups := groupTagsByDb tags
  let outs := groups.map (fun g => readGroup g.1 g.2 readFn now)
  (mergeTags tags (outs.flatMap (fun o => o.1)),
   outs.flatMap (fun o => o.2.1),
   outs.flatMap (fun o => o.2.2))

/-! ## Batch write flush (`DBPLCTagManager.write_pending_tags`) -/

/-- Stage one pending value into the block buffer, as the flush loop does
for one tag.  `none` models an exception inside the loop (bytearray index
error, `struct.error` on an out-of-range integer, `.encode` on a non-string
value, a doubly-failing GBK truncation).  A `bool` tag without `bit_index`
falls into the source's final `else`: a warning only, the buffer is left
untouched and the tag is still treated as staged. -/
def patchTag (buffer : List Nat) (start : Nat) (t : Tag) (v : Value) :
    Option (List Nat) :=
  let rel := t.start_offset - start
  match t.data_type, t.bit_index with
  | .bool, some k => setBoolInBytearray buffer rel k (pyTruthy v)
  | .bool, none => some buffer
  | .int, _ => (encInt v).map (fun bs => pySliceAssign buffer rel (rel + 2) bs)
  | .dint, _ => (encDint v).map (fun bs => pySliceAssign buffer rel (rel + 4) bs)
  | .real, _ => (encReal v).map (fun bs => pySliceAssign buffer rel (rel + 4) bs)
  | .lreal, _ => (encLReal v).map (fun bs => pySliceAssign buffer rel (rel + 8) bs)
  | .string, _ =>
    match v with
    | .vStr s =>
      (buildStringBuffer t.size s).map
        (fun buf => pySliceAssign buffer rel (rel + t.size + 2) buf)
    | _ => none

/-- The staging loop of `write_pending_tags` over one group: patch each
tag's pending value into the buffer, clearing the pending slot and noting
success tag by tag; an exception stops the loop, leaving the remaining
tags untouched (the tags already processed keep their cleared slots). -/
def patchLoop (buffer : List Nat) (start : Nat) :
    List Tag → List Tag × List Tag × Option (List Nat)
  | [] => ([], [], some buffer)
  | t :: ts =>
    match patchTag buffer start t (t.pending.getD Value.vNone) with
    | none => ([], t :: ts, none)
    | some buf' =>
      let t' := { t with pending := none }
      let (done, rest, r) := patchLoop buf' start ts
      (t' :: done, rest, r)

/-- One group of `write_pending_tags`: read the original block, stage every
pending value into a copy, then write the block back.  The result of the
block write is not consulted (the source discards `writeDB_Byte`'s return
value); a failed block read, or an exception while staging, marks every
tag of the group `False` in the result map. -/
def flushGroup (db : Nat) (gtags : List Tag) (readFn : ReadFn)
    (writeFn : WriteFn) : List Tag × List (String × Bool) × List IOEvent :=
  let r := calcReadRange gtags
  let writeSize := r.2 - r.1 + 1
  let rev := IOEvent.readBytes db r.1 writeSize
  match readFn db r.1 writeSize with
  | none => (gtags, gtags.map (fun t => (t.tagpath, false)), [rev])
  | some data =>
    match patchLoop data r.1 gtags with
    | (done, rest, none) =>
      (done ++ rest, gtags.map (fun t => (t.tagpath, false)), [rev])
    | (done, _, some buffer) =>
      let _ := writeFn db r.1 buffer
      (done, gtags.map (fun t => (t.tagpath, true)),
       [rev, IOEvent.writeBytes db r.1 buffer])

/-- `DBPLCTagManager.write_pending_tags`: collect the tags with a pending
value; when none exist return an empty result map without any I/O;
otherwise group by data block and flush each group. -/
def writePendingTags (tags : List Tag) (readFn : ReadFn) (writeFn : WriteFn) :
    List Tag × List (String × Bool) × List IOEvent :=
  let pendingTags := tags.filter (fun t => t.pending.isSome)
  if pendingTags = [] then (tags, [], [])
  else
    let groups := groupTagsByDb pendingTags
    let outs := groups.map (fun g => flushGroup g.1 g.2 readFn writeFn)
    (mergeTags tags (outs.flatMap (fun o => o.1)),
     outs.flatMap (fun o => o.2.1),
     outs.flatMap (fun o => o.2.2))

/-! ## Single-tag write (`DBPLCTagManager.write_tag`) -/

/-- The synchronous PLC client's typed write entry points
(`PLCClient.writeDB_Bit/.._Int/.._DInt/.._Real/.._LReal/.._String`), as a
success-flag oracle: each call is real I/O whose internals live in
`client.py` and are not decided by any claim. -/
structure SyncClient where
  writeBit : Nat → Nat → Option Nat → Value → Bool
  writeInt : Nat → Nat → Value → Bool
  writeDint : Nat → Nat → Value → Bool
  writeReal : Nat → Nat → Value → Bool
  writeLReal : Nat → Nat → Value → Bool
  writeString : Nat → Nat → Nat → Value → Bool

/-- Dispatch of `write_tag`'s `immediate=True` branch on `data_type`. -/
def syncWriteDispatch (client : SyncClient) (t : Tag) (v : Value) :
    Bool × IOEvent :=
  let ev := IOEvent.syncWrite t.db_number t.start_offset t.data_type
  match t.data_type with
  | .bool => (client.writeBit t.db_number t.start_offset t.bit_index v, ev)
  | .int => (client.writeInt t.db_number t.start_offset v, ev)
  | .dint => (client.writeDint t.db_number t.start_offset v, ev)
  | .real => (client.writeReal t.db_number t.start_offset v, ev)
  | .lreal => (client.writeLReal t.db_number t.start_offset v, ev)
  | .string => (client.writeString t.db_number t.start_offset t.size v, ev)

/-- Apply an update to the (unique) tag with the given path. -/
def updateTag (tags : List Tag) (path : String) (f : Tag → Tag) : List Tag :=
  tags.map (fun t => if t.tagpath == path then f t else t)

/-- `DBPLCTagManager.write_tag`: raise (`Except.error`) on an unknown tag
path; with `immediate=True` issue one typed synchronous write and update
the tag value on success; with `immediate=False` only store the value in
the pending-write slot and report success, with no I/O. -/
def writeTag (tags : List Tag) (path : String) (v : Value)
    (immediate : Bool) (client : SyncClient) (now : Nat) :
    Except String (List Tag × Bool × List IOEvent) :=
  match tags.find? (fun t => t.tagpath == path) with
  | none => .error "tag not found"
  | some tag =>
    if immediate then
      let (res, ev) := syncWriteDispatch client tag v
      if res then
        .ok (updateTag tags path (fun t => tagSetValue t v now), true, [ev])
      else
        .ok (tags, false, [ev])
    else
      .ok (updateTag tags path (fun t => { t with pending := some v }),
           true, [])

/-! ## REST write route (`gateway/plc_api/app/routes/plc.py: write_tags`) -/

/-- HTTP response envelope produced by `success_response`/`error_response`
(status code plus the `success` flag of the JSON body). -/
structure ApiResponse where
  success : Bool
  code : Nat
deriving DecidableEq, BEq

/-- Outcome of one POST `/api/plc/write`: the response, whether
`internal_write_tags` ran, and the PLC I/O performed. -/
structure WriteRouteOut where
  resp : ApiResponse
  internalCalled : Bool
  trace : List IOEvent
deriving DecidableEq, BEq

/-- `Config.MAX_BATCH_SIZE` default. -/
def MAX_BATCH_SIZE : Nat := 100

/-- `internal_write_tags`: stage every request entry via
`write_tag(path, value, False)`, then flush with `write_pending_tags`. -/
def internalWriteTags (registry : List Tag) (data : List (String × Value))
    (readFn : ReadFn) (writeFn : WriteFn) :
    List Tag × List (String × Bool) × List IOEvent :=
  let staged := data.foldl
    (fun ts pv => updateTag ts pv.1 (fun t => { t with pending := some pv.2 }))
    registry
  writePendingTags staged readFn writeFn

/-- `write_tags` (POST `/api/plc/write`): reject an empty body (HTTP 400);
reject any unregistered tag path (`validate_write_data`, HTTP 400) before
any I/O; reject a body larger than `MAX_BATCH_SIZE` (HTTP 413) before any
I/O; otherwise run `internal_write_tags` and report per-tag results
(HTTP 400 `success=false` when some tag failed). -/
def writeTagsRoute (registry : List Tag) (data : List (String × Value))
    (maxBatch : Nat) (readFn : ReadFn) (writeFn : WriteFn) : WriteRouteOut :=
  if data = [] then ⟨⟨false, 400⟩, false, []⟩
  else
    let invalid := (data.map Prod.fst).filter
      (fun p => !(registry.any (fun t => t.tagpath == p)))
    if invalid ≠ [] then ⟨⟨false, 400⟩, false, []⟩
    else if maxBatch < data.length then ⟨⟨false, 413⟩, false, []⟩
    else
      let out := internalWriteTags registry data readFn writeFn
      let failed := out.2.1.filter (fun r => !r.2)
      if failed ≠ [] then ⟨⟨false, 400⟩, true, out.2.2⟩
      else ⟨⟨true, 200⟩, true, out.2.2⟩

/-! ## Helper lemmas -/

/-- `updateTag` with a pending-slot update leaves every other field of
every tag unchanged, as seen through any field projection that ignores the
pending slot. -/
theorem map_updateTag_pending {α : Type} (tags : List Tag) (path : String)
    (v : Value) (g : Tag → α)
    (hg : ∀ t : Tag, g { t with pending := some v } = g t) :
    (updateTag tags path (fun t => { t with pending := some v })).map g =
      tags.map g := by
  induction tags with
  | nil => rfl
  | cons t ts ih =>
    simp only [updateTag, List.map_cons] at ih ⊢
    refine congrArg₂ _ ?_ ih
    split <;> simp [hg]

/-! ## C5 -/

/-- C5: for a boolean tag monitor starting at `false`, the assignment
sequence `false, true, true, false` enqueues exactly
CHANGE(false→true), RISING, BOTH, CHANGE(true→false), FALLING, BOTH,
in that order; the duplicate assignment of `true` enqueues nothing. -/
theorem c5_bool_edge_event_sequence :
    (monitorSetValue (monitorSetValue (monitorSetValue
        (monitorSetValue ⟨"tag", Value.vBool false, []⟩ (Value.vBool false))
        (Value.vBool true)) (Value.vBool true)) (Value.vBool false)).events =
    [ (EventKey.change, ⟨"tag", Value.vBool false, Value.vBool true, none⟩),
      (EventKey.rising,
        ⟨"tag", Value.vBool false, Value.vBool true, some EdgeKind.rising⟩),
      (EventKey.both,
        ⟨"tag", Value.vBool false, Value.vBool true, some EdgeKind.rising⟩),
      (EventKey.change, ⟨"tag", Value.vBool true, Value.vBool false, none⟩),
      (EventKey.falling,
        ⟨"tag", Value.vBool true, Value.vBool false, some EdgeKind.falling⟩),
      (EventKey.both,
        ⟨"tag", Value.vBool true, Value.vBool false, some EdgeKind.falling⟩) ] := by
  decide

/-! ## C10 -/

/-- C10: assigning a monitor a value that is Python-equal (`==`) to the old
one — including across types, e.g. old `1` and new `True` — enqueues no
event of any kind, though the stored value is still replaced by the new
object; and any edge event (RISING/FALLING/BOTH) can only arise when both
the old and the new value are of type `bool`. -/
theorem c10_monitor_python_equality :
    (∀ (m : Monitor) (newV : Value), pyEq m.value newV = true →
      monitorSetValue m newV = { m with value := newV }) ∧
    (∀ (name : String) (oldV newV : Value) (k : EventKey)
        (ev : VariableEvent), (k, ev) ∈ detectChange name oldV newV →
      k ≠ EventKey.change → oldV.isBool = true ∧ newV.isBool = true) := by
  constructor
  · intro m newV h
    simp [monitorSetValue, h]
  · intro name oldV newV k ev hmem hk
    cases oldV <;> cases newV <;>
      first
        | exact ⟨rfl, rfl⟩
        | (simp only [detectChange, List.cons_append, List.nil_append,
            List.mem_cons, List.not_mem_nil, or_false, Prod.mk.injEq] at hmem
           exact absurd hmem.1 hk)

/-- C10 witness: with old value `1` and new value `True`, the values are
Python-equal, so the assignment replaces the stored value and enqueues
nothing. -/
theorem c10_monitor_python_equality_witness :
    pyEq (Value.vInt 1) (Value.vBool true) = true ∧
    monitorSetValue ⟨"m", Value.vInt 1, []⟩ (Value.vBool true) =
      ⟨"m", Value.vBool true, []⟩ :=
  ⟨by decide,
   c10_monitor_python_equality.1 ⟨"m", Value.vInt 1, []⟩ (Value.vBool true)
     (by decide)⟩

/-! ## C9 -/

/-- C9: for a registered tag path, `write_tag(path, value, immediate=False)`
returns `True` for every value, performs no PLC I/O, and only stores the
value in the tag's pending-write slot: `current_value`,
`last_update_time` and the monitor are untouched, and no validation or
encoding of the value happens at staging time. -/
theorem c9_write_tag_stages_only (tags : List Tag) (path : String)
    (v : Value) (client : SyncClient) (now : Nat)
    (h : (tags.find? (fun t => t.tagpath == path)).isSome = true) :
    writeTag tags path v false client now =
      .ok (updateTag tags path (fun t => { t with pending := some v }),
           true, []) ∧
    (updateTag tags path (fun t => { t with pending := some v })).map
        (fun t => t.value) = tags.map (fun t => t.value) ∧
    (updateTag tags path (fun t => { t with pending := some v })).map
        (fun t => t.last_update_time) =
      tags.map (fun t => t.last_update_time) ∧
    (updateTag tags path (fun t => { t with pending := some v })).map
        (fun t => t.monitor) = tags.map (fun t => t.monitor) := by
  obtain ⟨tag, hfind⟩ := Option.isSome_iff_exists.mp h
  refine ⟨?_, ?_, ?_, ?_⟩
  · simp [writeTag, hfind]
  · exact map_updateTag_pending tags path v _ (fun t => rfl)
  · exact map_updateTag_pending tags path v _ (fun t => rfl)
  · exact map_updateTag_pending tags path v _ (fun t => rfl)

/-- C9 witness: staging `7` on a concrete registered tag returns `True`,
issues no I/O, fills the pending slot and leaves the rest of the tag
alone. -/
theorem c9_write_tag_stages_only_witness :
    ((([⟨"x", 2, 4, 2, DataType.int, none, Value.vInt 1, none, 0,
        ⟨"x", Value.vInt 1, []⟩⟩] : List Tag).find?
          (fun t => t.tagpath == "x")).isSome = true) ∧
    writeTag [⟨"x", 2, 4, 2, DataType.int, none, Value.vInt 1, none, 0,
        ⟨"x", Value.vInt 1, []⟩⟩] "x" (Value.vInt 7) false
        ⟨fun _ _ _ _ => false, fun _ _ _ => false, fun _ _ _ => false,
         fun _ _ _ => false, fun _ _ _ => false, fun _ _ _ _ => false⟩ 0 =
      .ok ([⟨"x", 2, 4, 2, DataType.int, none, Value.vInt 1,
              some (Value.vInt 7), 0, ⟨"x", Value.vInt 1, []⟩⟩],
           true, []) := by
  refine ⟨by decide, ?_⟩
  have h := (c9_write_tag_stages_only
    [⟨"x", 2, 4, 2, DataType.int, none, Value.vInt 1, none, 0,
        ⟨"x", Value.vInt 1, []⟩⟩] "x" (Value.vInt 7)
    ⟨fun _ _ _ _ => false, fun _ _ _ => false, fun _ _ _ => false,
     fun _ _ _ => false, fun _ _ _ => false, fun _ _ _ _ => false⟩ 0
    (by decide)).1
  rw [h]
  rfl

/-! ## C8 -/

/-- C8: when no tag has a pending write, `write_pending_tags` returns an
empty result map, leaves every tag unchanged and issues zero PLC I/O. -/
theorem c8_flush_no_pending_is_noop (tags : List Tag) (readFn : ReadFn)
    (writeFn : WriteFn) (h : ∀ t ∈ tags, t.pending = none) :
    writePendingTags tags readFn writeFn = (tags, [], []) := by
  have hfilter : tags.filter (fun t => t.pending.isSome) = [] := by
    rw [List.filter_eq_nil_iff]
    intro t ht
    simp [h t ht]
  simp [writePendingTags, hfilter]

/-- C8 witness: a concrete registry with no pending writes flushes to an
empty result map with zero I/O. -/
theorem c8_flush_no_pending_is_noop_witness :
    writePendingTags
      [⟨"x", 2, 4, 2, DataType.int, none, Value.vInt 1, none, 0,
          ⟨"x", Value.vInt 1, []⟩⟩]
      (fun _ _ _ => some [0, 0]) (fun _ _ _ => true) =
    ([⟨"x", 2, 4, 2, DataType.int, none, Value.vInt 1, none, 0,
          ⟨"x", Value.vInt 1, []⟩⟩], [], []) :=
  c8_flush_no_pending_is_noop _ _ _
    (by intro t ht; simp only [List.mem_singleton] at ht; subst ht; rfl)

/-! ## C2 -/

/-- When every decode step of a group succeeds (returns a value, possibly
a failure fallback), the decode loop processes every tag of the group. -/
theorem decodeLoop_all_ok (data : List Nat) (start now : Nat)
    (gtags : List Tag)
    (h : ∀ t ∈ gtags, ∃ v, decodeTagValue data start t = .ok v) :
    decodeLoop data start now gtags =
      (gtags.map (fun t =>
          tagSetValue t (okValue (decodeTagValue data start t)) now),
       [],
       gtags.map (fun t =>
          (t.tagpath, okValue (decodeTagValue data start t))),
       true) := by
  induction gtags with
  | nil => rfl
  | cons t ts ih =>
    obtain ⟨v, hv⟩ := h t (List.mem_cons_self t ts)
    have hts := ih (fun u hu => h u (List.mem_cons_of_mem _ hu))
    simp [decodeLoop, hv, hts, okValue]

/-- C2 counterexample: a string tag whose payload `[0x81, 0x30]` fails GBK
decoding twice has its `current_value` overwritten with the raw bytes by
the batch read sweep — it is not left unchanged as the claim states. -/
theorem c2_read_decode_failure_counterexample :
    gbkDecode [129, 48] = none ∧
    gbkDecode ([129, 48] : List Nat).dropLast = none ∧
    (readAllTags
        [⟨"s", 1, 0, 4, DataType.string, none, Value.vStr [GChar.ascii 65],
            none, 0, ⟨"s", Value.vStr [GChar.ascii 65], []⟩⟩]
        (fun db off sz =>
          if db = 1 ∧ off = 0 ∧ sz = 6 then some [4, 2, 129, 48, 0, 0]
          else none)
        7).1.map (fun u => u.value) = [Value.vBytes [129, 48]] ∧
    Value.vBytes [129, 48] ≠ Value.vStr [GChar.ascii 65] := by
  decide

/-- C2 (amended): in the batch read sweep, a per-tag decode failure does
not abort the data block — once the block read succeeds and no string
header lies out of range, every tag of the group is processed and
assigned the decoded value or the failure fallback (`None`, or the raw
bytes for a doubly-undecodable string), and every tag appears in the
result map. -/
theorem c2_read_sweep_block_not_aborted (db : Nat) (gtags : List Tag)
    (readFn : ReadFn) (now : Nat) (data : List Nat)
    (hread : readFn db (calcReadRange gtags).1
        ((calcReadRange gtags).2 - (calcReadRange gtags).1 + 1) = some data)
    (hdec : ∀ t ∈ gtags,
        ∃ v, decodeTagValue data (calcReadRange gtags).1 t = .ok v) :
    readGroup db gtags readFn now =
      (gtags.map (fun t =>
          tagSetValue t
            (okValue (decodeTagValue data (calcReadRange gtags).1 t)) now),
       gtags.map (fun t =>
          (t.tagpath,
           okValue (decodeTagValue data (calcReadRange gtags).1 t))),
       [IOEvent.readBytes db (calcReadRange gtags).1
          ((calcReadRange gtags).2 - (calcReadRange gtags).1 + 1)]) := by
  unfold readGroup
  simp only [hread, decodeLoop_all_ok data (calcReadRange gtags).1 now gtags
    hdec, if_pos]

/-- C2 witness: with the failing string tag above, the sweep still
processes the tag and stores the raw-bytes fallback. -/
theorem c2_read_sweep_block_not_aborted_witness :
    readGroup 1
      [⟨"s", 1, 0, 4, DataType.string, none, Value.vStr [GChar.ascii 65],
          none, 0, ⟨"s", Value.vStr [GChar.ascii 65], []⟩⟩]
      (fun db off sz =>
        if db = 1 ∧ off = 0 ∧ sz = 6 then some [4, 2, 129, 48, 0, 0]
        else none)
      7 =
      ([⟨"s", 1, 0, 4, DataType.string, none, Value.vBytes [129, 48],
           none, 7, ⟨"s", Value.vBytes [129, 48],
             [(EventKey.change,
               ⟨"s", Value.vStr [GChar.ascii 65], Value.vBytes [129, 48],
                none⟩)]⟩⟩],
       [("s", Value.vBytes [129, 48])],
       [IOEvent.readBytes 1 0 6]) := by
  have h := c2_read_sweep_block_not_aborted 1
    [⟨"s", 1, 0, 4, DataType.string, none, Value.vStr [GChar.ascii 65],
        none, 0, ⟨"s", Value.vStr [GChar.ascii 65], []⟩⟩]
    (fun db off sz =>
      if db = 1 ∧ off = 0 ∧ sz = 6 then some [4, 2, 129, 48, 0, 0]
      else none)
    7 [4, 2, 129, 48, 0, 0] (by decide)
    (by intro t ht
        simp only [List.mem_singleton] at ht
        subst ht
        exact ⟨Value.vBytes [129, 48], rfl⟩)
  rw [h]
  decide

/-! ## C3 -/

/-- Membership in an insertion-ordered key set. -/
theorem mem_insertKey (ks : List Nat) (db x : Nat) :
    x ∈ insertKey ks db ↔ x ∈ ks ∨ x = db := by
  unfold insertKey
  split
  · next h =>
    constructor
    · exact Or.inl
    · rintro (h1 | rfl)
      · exact h1
      · exact h
  · simp

/-- Inserting a key preserves distinctness. -/
theorem nodup_insertKey (ks : List Nat) (db : Nat) (h : ks.Nodup) :
    (insertKey ks db).Nodup := by
  unfold insertKey
  split
  · exact h
  · next hmem =>
    rw [List.nodup_append]
    exact ⟨h, List.nodup_singleton db,
      fun a ha => by simp; rintro rfl; exact hmem ha⟩

/-- Membership in the fold that builds the dict key list. -/
theorem mem_foldl_insertKey (l : List Tag) :
    ∀ (acc : List Nat) (x : Nat),
      x ∈ l.foldl (fun ks t => insertKey ks t.db_number) acc ↔
        x ∈ acc ∨ x ∈ l.map (fun t => t.db_number) := by
  induction l with
  | nil => simp
  | cons t ts ih =>
    intro acc x
    rw [List.foldl_cons, ih, mem_insertKey]
    simp
    tauto

/-- The dict key list built by the fold is duplicate-free. -/
theorem nodup_foldl_insertKey (l : List Tag) :
    ∀ acc : List Nat, acc.Nodup →
      (l.foldl (fun ks t => insertKey ks t.db_number) acc).Nodup := by
  induction l with
  | nil => exact fun acc h => h
  | cons t ts ih =>
    intro acc h
    exact ih _ (nodup_insertKey _ _ h)

/-- A group of `read_all_tags` issues exactly one block read, whatever the
read outcome and however decoding goes. -/
theorem readGroup_trace (db : Nat) (g : List Tag) (readFn : ReadFn)
    (now : Nat) :
    (readGroup db g readFn now).2.2 =
      [IOEvent.readBytes db (calcReadRange g).1
        ((calcReadRange g).2 - (calcReadRange g).1 + 1)] := by
  unfold readGroup
  rcases h : readFn db (calcReadRange g).1
      ((calcReadRange g).2 - (calcReadRange g).1 + 1) with _ | data
  · simp [h]
  · simp only [h]
    rcases hdl : decodeLoop data (calcReadRange g).1 now g with
      ⟨done, rest, res, ok⟩
    cases ok <;> simp [hdl]

/-- C3: for a non-empty tag set, the batch read sweep issues exactly one
block read per data block: the key set of the grouping is the distinct
`db_number`s, and each block's single read starts at the minimum
`start_offset` of its tags and spans `end - start + 1` bytes, where `end`
is the maximum over the group of `start_offset + size - 1` for non-string
tags and `start_offset + size + 1` for string tags. -/
theorem c3_read_all_one_read_per_block (tags : List Tag) (readFn : ReadFn)
    (now : Nat) (hne : tags ≠ []) (hsz : ∀ t ∈ tags, 1 ≤ t.size) :
    (readAllTags tags readFn now).2.2 =
      (dbKeys tags).map (fun db =>
        IOEvent.readBytes db
          (listMin ((tags.filter (fun t => t.db_number == db)).map
            (fun t => t.start_offset)))
          (listMax ((tags.filter (fun t => t.db_number == db)).map
              (fun t =>
                if t.data_type != DataType.string then
                  t.start_offset + t.size - 1
                else t.start_offset + t.size + 1)) -
            listMin ((tags.filter (fun t => t.db_number == db)).map
              (fun t => t.start_offset)) + 1)) ∧
    (dbKeys tags).Nodup ∧
    (∀ db, db ∈ dbKeys tags ↔ db ∈ tags.map (fun t => t.db_number)) := by
  refine ⟨?_, nodup_foldl_insertKey tags [] List.nodup_nil, ?_⟩
  · have htr : ∀ keys : List Nat,
        (((keys.map (fun db =>
            (db, tags.filter (fun t => t.db_number == db)))).map
          (fun g => readGroup g.1 g.2 readFn now)).flatMap
            (fun o => o.2.2)) =
        keys.map (fun db =>
          IOEvent.readBytes db
            (calcReadRange (tags.filter (fun t => t.db_number == db))).1
            ((calcReadRange (tags.filter (fun t => t.db_number == db))).2 -
             (calcReadRange (tags.filter (fun t => t.db_number == db))).1 +
             1)) := by
      intro keys
      induction keys with
      | nil => rfl
      | cons db ks ih =>
        simp only [List.map_cons, List.flatMap_cons, ih, readGroup_trace]
        rfl
    show (((groupTagsByDb tags).map
        (fun g => readGroup g.1 g.2 readFn now)).flatMap
          (fun o => o.2.2)) = _
    rw [groupTagsByDb, htr]
    rfl
  · intro db
    have h := mem_foldl_insertKey tags [] db
    simpa using h

/-- C3 witness: three tags in two data blocks produce exactly one read per
block with the claimed covering ranges (the string tag contributes its
2-byte header to the range end). -/
theorem c3_read_all_one_read_per_block_witness :
    (readAllTags
        [⟨"a", 1, 2, 2, DataType.int, none, Value.vNone, none, 0, ⟨"a", Value.vNone, []⟩⟩,
         ⟨"b", 1, 8, 4, DataType.string, none, Value.vNone, none, 0, ⟨"b", Value.vNone, []⟩⟩,
         ⟨"c", 2, 0, 1, DataType.bool, some 0, Value.vNone, none, 0, ⟨"c", Value.vNone, []⟩⟩]
        (fun _ _ _ => none) 0).2.2 =
      [IOEvent.readBytes 1 2 12, IOEvent.readBytes 2 0 1] := by
  have h := (c3_read_all_one_read_per_block
    [⟨"a", 1, 2, 2, DataType.int, none, Value.vNone, none, 0, ⟨"a", Value.vNone, []⟩⟩,
     ⟨"b", 1, 8, 4, DataType.string, none, Value.vNone, none, 0, ⟨"b", Value.vNone, []⟩⟩,
     ⟨"c", 2, 0, 1, DataType.bool, some 0, Value.vNone, none, 0, ⟨"c", Value.vNone, []⟩⟩]
    (fun _ _ _ => none) 0 (by decide)
    (by intro t ht
        fin_cases ht <;> decide)).1
  rw [h]
  decide

/-! ## C1 -/

/-- When the staging loop of the flush runs to completion, it has cleared
the pending slot of every tag of the group — and touched nothing else of
any tag. -/
theorem patchLoop_ok (start : Nat) (ts : List Tag) :
    ∀ (buffer : List Nat) (done rest : List Tag) (buf : List Nat),
      patchLoop buffer start ts = (done, rest, some buf) →
      done = ts.map (fun t => { t with pending := none }) ∧ rest = [] := by
  induction ts with
  | nil =>
    intro buffer done rest buf h
    simp only [patchLoop, Prod.mk.injEq] at h
    exact ⟨h.1.symm, h.2.1.symm⟩
  | cons t ts ih =>
    intro buffer done rest buf h
    unfold patchLoop at h
    rcases hp : patchTag buffer start t (t.pending.getD Value.vNone) with
      _ | buf'
    · rw [hp] at h
      simp at h
    · rw [hp] at h
      rcases hq : patchLoop buf' start ts with ⟨done', rest', r⟩
      simp only [hq, Prod.mk.injEq] at h
      obtain ⟨hdone, hrest, hr⟩ := h
      cases r with
      | none => exact absurd hr (by simp)
      | some b =>
        obtain ⟨hd, hrn⟩ := ih buf' done' rest' b hq
        subst hd
        exact ⟨by rw [← hdone]; rfl, by rw [← hrest, hrn]⟩

/-- C1 counterexample: one pending int tag, the block read succeeds and
the block write fails — yet the flush reports `True` for the tag, clears
its pending slot, and leaves `current_value` unchanged, contradicting the
claim that a failed block write leaves the pending value in place and
yields a `False` result (and that a successful flush commits
`current_value`). -/
theorem c1_flush_write_failure_counterexample :
    (fun (_ : Nat) (_ : Nat) (_ : List Nat) => false) 2 4 ([0, 7] : List Nat)
      = false ∧
    (writePendingTags
        [⟨"x", 2, 4, 2, DataType.int, none, Value.vInt 1,
            some (Value.vInt 7), 0, ⟨"x", Value.vInt 1, []⟩⟩]
        (fun db off sz =>
          if db = 2 ∧ off = 4 ∧ sz = 2 then some [0, 0] else none)
        (fun _ _ _ => false)).2.1 = [("x", true)] ∧
    (writePendingTags
        [⟨"x", 2, 4, 2, DataType.int, none, Value.vInt 1,
            some (Value.vInt 7), 0, ⟨"x", Value.vInt 1, []⟩⟩]
        (fun db off sz =>
          if db = 2 ∧ off = 4 ∧ sz = 2 then some [0, 0] else none)
        (fun _ _ _ => false)).1.map (fun t => t.pending) = [none] ∧
    (writePendingTags
        [⟨"x", 2, 4, 2, DataType.int, none, Value.vInt 1,
            some (Value.vInt 7), 0, ⟨"x", Value.vInt 1, []⟩⟩]
        (fun db off sz =>
          if db = 2 ∧ off = 4 ∧ sz = 2 then some [0, 0] else none)
        (fun _ _ _ => false)).1.map (fun t => t.value) = [Value.vInt 1] ∧
    (writePendingTags
        [⟨"x", 2, 4, 2, DataType.int, none, Value.vInt 1,
            some (Value.vInt 7), 0, ⟨"x", Value.vInt 1, []⟩⟩]
        (fun db off sz =>
          if db = 2 ∧ off = 4 ∧ sz = 2 then some [0, 0] else none)
        (fun _ _ _ => false)).2.2 =
      [IOEvent.readBytes 2 4 2, IOEvent.writeBytes 2 4 [0, 7]] := by
  decide

/-- C1 (amended): per data-block group of the flush, once the block read
succeeds and every pending value stages into the buffer without an
exception, every tag of the group gets its pending slot cleared and a
`True` result entry, with `current_value` (and everything else besides the
pending slot) untouched — regardless of the block write's outcome, which
the flush does not consult; only a failed block read makes the flush keep
the pending values and report `False` for the group. -/
theorem c1_flush_ignores_write_result (db : Nat) (gtags : List Tag)
    (readFn : ReadFn) (writeFn : WriteFn) :
    (∀ (data buf : List Nat) (done rest : List Tag),
      readFn db (calcReadRange gtags).1
          ((calcReadRange gtags).2 - (calcReadRange gtags).1 + 1) =
        some data →
      patchLoop data (calcReadRange gtags).1 gtags =
        (done, rest, some buf) →
      flushGroup db gtags readFn writeFn =
        (gtags.map (fun t => { t with pending := none }),
         gtags.map (fun t => (t.tagpath, true)),
         [IOEvent.readBytes db (calcReadRange gtags).1
            ((calcReadRange gtags).2 - (calcReadRange gtags).1 + 1),
          IOEvent.writeBytes db (calcReadRange gtags).1 buf])) ∧
    (readFn db (calcReadRange gtags).1
        ((calcReadRange gtags).2 - (calcReadRange gtags).1 + 1) = none →
      flushGroup db gtags readFn writeFn =
        (gtags, gtags.map (fun t => (t.tagpath, false)),
         [IOEvent.readBytes db (calcReadRange gtags).1
            ((calcReadRange gtags).2 - (calcReadRange gtags).1 + 1)])) := by
  constructor
  · intro data buf done rest hread hpatch
    obtain ⟨hdone, _⟩ := patchLoop_ok (calcReadRange gtags).1 gtags data
      done rest buf hpatch
    unfold flushGroup
    simp only [hread, hpatch, hdone]
  · intro hread
    unfold flushGroup
    simp only [hread]

/-- C1 witness: the amended behaviour at two concrete runs — a successful
read with a failing write still clears pending and reports `True`; a
failed read keeps the tag untouched and reports `False`. -/
theorem c1_flush_ignores_write_result_witness :
    flushGroup 2
      [⟨"x", 2, 4, 2, DataType.int, none, Value.vInt 1,
          some (Value.vInt 7), 0, ⟨"x", Value.vInt 1, []⟩⟩]
      (fun db off sz =>
        if db = 2 ∧ off = 4 ∧ sz = 2 then some [0, 0] else none)
      (fun _ _ _ => false) =
      ([⟨"x", 2, 4, 2, DataType.int, none, Value.vInt 1, none, 0,
           ⟨"x", Value.vInt 1, []⟩⟩],
       [("x", true)],
       [IOEvent.readBytes 2 4 2, IOEvent.writeBytes 2 4 [0, 7]]) ∧
    flushGroup 2
      [⟨"x", 2, 4, 2, DataType.int, none, Value.vInt 1,
          some (Value.vInt 7), 0, ⟨"x", Value.vInt 1, []⟩⟩]
      (fun _ _ _ => none) (fun _ _ _ => true) =
      ([⟨"x", 2, 4, 2, DataType.int, none, Value.vInt 1,
           some (Value.vInt 7), 0, ⟨"x", Value.vInt 1, []⟩⟩],
       [("x", false)],
       [IOEvent.readBytes 2 4 2]) := by
  constructor
  · have h := (c1_flush_ignores_write_result 2
      [⟨"x", 2, 4, 2, DataType.int, none, Value.vInt 1,
          some (Value.vInt 7), 0, ⟨"x", Value.vInt 1, []⟩⟩]
      (fun db off sz =>
        if db = 2 ∧ off = 4 ∧ sz = 2 then some [0, 0] else none)
      (fun _ _ _ => false)).1 [0, 0] [0, 7]
      [⟨"x", 2, 4, 2, DataType.int, none, Value.vInt 1, none, 0,
          ⟨"x", Value.vInt 1, []⟩⟩] [] (by decide) rfl
    rw [h]
    rfl
  · have h := (c1_flush_ignores_write_result 2
      [⟨"x", 2, 4, 2, DataType.int, none, Value.vInt 1,
          some (Value.vInt 7), 0, ⟨"x", Value.vInt 1, []⟩⟩]
      (fun _ _ _ => none) (fun _ _ _ => true)).2 rfl
    rw [h]
    rfl

/-! ## C4 -/

/-- Unfolding `gbkEncode` over the first character. -/
theorem gbkEncode_cons (c : GChar) (cs : List GChar) :
    gbkEncode (c :: cs) = gbkEncodeChar c ++ gbkEncode cs := by
  simp [gbkEncode]

/-- Decoding a byte string that starts with an ASCII-range byte. -/
theorem gbkDecode_ascii_cons (b : Nat) (hb : b < 0x80) (t : List Nat) :
    gbkDecode (b :: t) = (gbkDecode t).map (GChar.ascii b :: ·) := by
  cases t with
  | nil => simp [gbkDecode, hb]
  | cons b2 rest => simp [gbkDecode, hb]

/-- Decoding a byte string that starts with a full two-byte character. -/
theorem gbkDecode_wide_cons (b1 b2 : Nat) (h1 : 0x81 ≤ b1) (h2 : b1 ≤ 0xFE)
    (h3 : validTrail b2 = true) (t : List Nat) :
    gbkDecode (b1 :: b2 :: t) = (gbkDecode t).map (GChar.wide b1 b2 :: ·) := by
  have hb : ¬ b1 < 0x80 := by omega
  have hd : (decide (0x81 ≤ b1 ∧ b1 ≤ 0xFE) && validTrail b2) = true := by
    simp [h1, h2, h3]
  simp only [gbkDecode]
  rw [if_neg hb, if_pos hd]

/-- GBK decode inverts GBK encode on valid character lists. -/
theorem gbk_roundtrip (s : List GChar) (hs : ValidGbk s = true) :
    gbkDecode (gbkEncode s) = some s := by
  induction s with
  | nil => rfl
  | cons c cs ih =>
    rw [ValidGbk, List.all_cons, Bool.and_eq_true] at hs
    have hcs := ih hs.2
    cases c with
    | ascii b =>
      have hb : b < 0x80 := by simpa [GChar.valid] using hs.1
      rw [gbkEncode_cons]
      show gbkDecode (b :: gbkEncode cs) = _
      rw [gbkDecode_ascii_cons b hb, hcs]
      rfl
    | wide b1 b2 =>
      have hc : (0x81 ≤ b1 ∧ b1 ≤ 0xFE) ∧ validTrail b2 = true := by
        simpa [GChar.valid] using hs.1
      rw [gbkEncode_cons]
      show gbkDecode (b1 :: b2 :: gbkEncode cs) = _
      rw [gbkDecode_wide_cons b1 b2 hc.1.1 hc.1.2 hc.2, hcs]
      rfl

/-- GBK encode reconstructs exactly the bytes a successful decode
consumed. -/
theorem gbkEncode_of_decode (t : List Nat) :
    ∀ u : List GChar, gbkDecode t = some u → gbkEncode u = t := by
  induction t using gbkDecode.induct with
  | case1 =>
    intro u h
    simp only [gbkDecode, Option.some.injEq] at h
    subst h
    rfl
  | case2 b hb =>
    intro u h
    simp only [gbkDecode, if_pos hb, Option.some.injEq] at h
    subst h
    simp [gbkEncode, gbkEncodeChar]
  | case3 b hb =>
    intro u h
    rw [show gbkDecode [b] = none by simp [gbkDecode, hb]] at h
    exact Option.noConfusion h
  | case4 b b2 rest hb ih =>
    intro u h
    rw [gbkDecode_ascii_cons b hb] at h
    obtain ⟨u', hd, hfu⟩ := Option.map_eq_some'.mp h
    subst hfu
    rw [gbkEncode_cons, ih u' hd]
    rfl
  | case5 b b2 rest hb hcond ih =>
    intro u h
    have h1 : 0x81 ≤ b ∧ b ≤ 0xFE := by
      have h4 := hcond
      simp only [Bool.and_eq_true, decide_eq_true_eq] at h4
      exact h4.1
    have h3 : validTrail b2 = true := by
      have h4 := hcond
      simp only [Bool.and_eq_true] at h4
      exact h4.2
    rw [gbkDecode_wide_cons b b2 h1.1 h1.2 h3] at h
    obtain ⟨u', hd, hfu⟩ := Option.map_eq_some'.mp h
    subst hfu
    rw [gbkEncode_cons, ih u' hd]
    rfl
  | case6 b b2 rest hb hcond =>
    intro u h
    rw [show gbkDecode (b :: b2 :: rest) = none by
      simp only [gbkDecode]; rw [if_neg hb, if_neg hcond]] at h
    exact Option.noConfusion h

/-- Truncating at `n ≤ length` and dropping the last byte is truncating
at `n - 1`. -/
theorem dropLast_take (bs : List Nat) (n : Nat) (h : n ≤ bs.length) :
    (bs.take n).dropLast = bs.take (n - 1) := by
  rw [List.dropLast_eq_take, List.take_take, List.length_take]
  congr 1
  omega

/-- If truncating the encoding of a valid GBK string at `n` is
undecodable (the cut split a two-byte character), dropping one more byte
makes it decodable again. -/
theorem gbk_take_recover (s : List GChar) (hs : ValidGbk s = true) :
    ∀ n, gbkDecode ((gbkEncode s).take n) = none →
      ∃ u, gbkDecode ((gbkEncode s).take (n - 1)) = some u := by
  induction s with
  | nil =>
    intro n h
    simp only [gbkEncode, List.flatMap_nil, List.take_nil] at h
    simp [gbkDecode] at h
  | cons c cs ih =>
    rw [ValidGbk, List.all_cons, Bool.and_eq_true] at hs
    have ihcs := ih hs.2
    intro n h
    cases c with
    | ascii b =>
      have hb : b < 0x80 := by simpa [GChar.valid] using hs.1
      rw [gbkEncode_cons] at h ⊢
      cases n with
      | zero => simp [gbkDecode] at h
      | succ m =>
        rw [show gbkEncodeChar (GChar.ascii b) ++ gbkEncode cs =
              b :: gbkEncode cs from rfl] at h ⊢
        rw [List.take_succ_cons, gbkDecode_ascii_cons b hb] at h
        have hE : gbkDecode ((gbkEncode cs).take m) = none := by
          rcases hd : gbkDecode ((gbkEncode cs).take m) with _ | u
          · rfl
          · rw [hd] at h
            simp at h
        cases m with
        | zero =>
          rw [List.take_zero] at hE
          simp [gbkDecode] at hE
        | succ m' =>
          obtain ⟨u, hu⟩ := ihcs (m' + 1) hE
          refine ⟨GChar.ascii b :: u, ?_⟩
          have hn : m' + 1 + 1 - 1 = m' + 1 := by omega
          rw [hn, List.take_succ_cons, gbkDecode_ascii_cons b hb]
          rw [show m' + 1 - 1 = m' from by omega] at hu
          rw [hu]
          rfl
    | wide b1 b2 =>
      have hc : (0x81 ≤ b1 ∧ b1 ≤ 0xFE) ∧ validTrail b2 = true := by
        simpa [GChar.valid] using hs.1
      rw [gbkEncode_cons] at h ⊢
      rw [show gbkEncodeChar (GChar.wide b1 b2) ++ gbkEncode cs =
            b1 :: b2 :: gbkEncode cs from rfl] at h ⊢
      cases n with
      | zero => simp [gbkDecode] at h
      | succ m =>
        cases m with
        | zero =>
          exact ⟨[], by simp [gbkDecode]⟩
        | succ m' =>
          rw [List.take_succ_cons, List.take_succ_cons,
            gbkDecode_wide_cons b1 b2 hc.1.1 hc.1.2 hc.2] at h
          have hE : gbkDecode ((gbkEncode cs).take m') = none := by
            rcases hd : gbkDecode ((gbkEncode cs).take m') with _ | u
            · rfl
            · rw [hd] at h
              simp at h
          cases m' with
          | zero =>
            rw [List.take_zero] at hE
            simp [gbkDecode] at hE
          | succ m'' =>
            obtain ⟨u, hu⟩ := ihcs (m'' + 1) hE
            refine ⟨GChar.wide b1 b2 :: u, ?_⟩
            have hn : m'' + 1 + 1 + 1 - 1 = m'' + 1 + 1 := by omega
            rw [hn, List.take_succ_cons, List.take_succ_cons,
              gbkDecode_wide_cons b1 b2 hc.1.1 hc.1.2 hc.2]
            rw [show m'' + 1 - 1 = m'' from by omega] at hu
            rw [hu]
            rfl

/-- C4: for every GBK-encodable string and declared size `n`, the write
flush's string encoder always succeeds and produces a payload of at most
`n` bytes that GBK-decodes back to a valid string; when the encoded bytes
fit they are used unchanged, and when they exceed `n` the payload is the
truncation to `n` bytes, or to `n - 1` bytes when the cut split a
multibyte character — a second decode failure (the only error path) never
occurs for encodable input. -/
theorem c4_string_truncation_safety (s : List GChar) (n : Nat)
    (hs : ValidGbk s = true) :
    ∃ bs, truncateGbk s n = some bs ∧ bs.length ≤ n ∧
      (∃ u, gbkDecode bs = some u) ∧
      ((gbkEncode s).length ≤ n → bs = gbkEncode s) ∧
      (n < (gbkEncode s).length →
        bs = (gbkEncode s).take n ∨ bs = (gbkEncode s).take (n - 1)) := by
  by_cases hle : (gbkEncode s).length ≤ n
  · refine ⟨gbkEncode s, ?_, hle, ⟨s, gbk_roundtrip s hs⟩, fun _ => rfl,
      fun hc => absurd hle (by omega)⟩
    simp only [truncateGbk, if_pos hle]
  · have hlt : n < (gbkEncode s).length := by omega
    rcases hd : gbkDecode ((gbkEncode s).take n) with _ | u
    · obtain ⟨u, hu⟩ := gbk_take_recover s hs n hd
      have hdl : ((gbkEncode s).take n).dropLast = (gbkEncode s).take (n - 1) :=
        dropLast_take _ _ (le_of_lt hlt)
      have heq : truncateGbk s n = some (gbkEncode u) := by
        simp only [truncateGbk, if_neg hle, hd, hdl, hu]
      have henc := gbkEncode_of_decode _ u hu
      refine ⟨gbkEncode u, heq, ?_, ⟨u, ?_⟩,
        fun hc => absurd hc (by omega), fun _ => Or.inr henc⟩
      · rw [henc, List.length_take]
        omega
      · rw [henc]
        exact hu
    · have heq : truncateGbk s n = some (gbkEncode u) := by
        simp only [truncateGbk, if_neg hle, hd]
      have henc := gbkEncode_of_decode _ u hd
      refine ⟨gbkEncode u, heq, ?_, ⟨u, ?_⟩,
        fun hc => absurd hc (by omega), fun _ => Or.inl henc⟩
      · rw [henc, List.length_take]
        omega
      · rw [henc]
        exact hd

/-- C4 witness: truncating the two-character GBK string
`[0xBB 0xFA] [0xC6 0xF7]` (4 bytes) to size 3 splits the second
character; the encoder steps back one byte and emits the 2-byte payload,
which decodes back to the first character. -/
theorem c4_string_truncation_safety_witness :
    ValidGbk [GChar.wide 0xBB 0xFA, GChar.wide 0xC6 0xF7] = true ∧
    ∃ bs, truncateGbk [GChar.wide 0xBB 0xFA, GChar.wide 0xC6 0xF7] 3 =
        some bs ∧ bs.length ≤ 3 ∧
      (∃ u, gbkDecode bs = some u) ∧
      ((gbkEncode [GChar.wide 0xBB 0xFA, GChar.wide 0xC6 0xF7]).length ≤ 3 →
        bs = gbkEncode [GChar.wide 0xBB 0xFA, GChar.wide 0xC6 0xF7]) ∧
      (3 < (gbkEncode [GChar.wide 0xBB 0xFA, GChar.wide 0xC6 0xF7]).length →
        bs = (gbkEncode [GChar.wide 0xBB 0xFA, GChar.wide 0xC6 0xF7]).take 3 ∨
        bs = (gbkEncode [GChar.wide 0xBB 0xFA, GChar.wide 0xC6 0xF7]).take
          (3 - 1)) :=
  ⟨by decide,
   c4_string_truncation_safety [GChar.wide 0xBB 0xFA, GChar.wide 0xC6 0xF7] 3
     (by decide)⟩

/-! ## C6 -/

/-- Setting one bit with `|=` leaves every other bit of the byte alone. -/
theorem testBit_or_single (b k j : Nat) (hj : j ≠ k) :
    (b ||| (1 <<< k)).testBit j = b.testBit j := by
  rw [show (1 : Nat) <<< k = 2 ^ k by simp [Nat.shiftLeft_eq],
    Nat.testBit_or, Nat.testBit_two_pow_of_ne (fun h => hj h.symm),
    Bool.or_false]

/-- Clearing one bit with `&= ~mask` (within a byte) leaves every other
bit of the byte alone. -/
theorem testBit_and_clear (b k j : Nat) (hb : b < 256) (hj : j ≠ k) :
    (b &&& (255 ^^^ (1 <<< k))).testBit j = b.testBit j := by
  rw [show (1 : Nat) <<< k = 2 ^ k by simp [Nat.shiftLeft_eq],
    Nat.testBit_and, Nat.testBit_xor,
    show (255 : Nat) = 2 ^ 8 - 1 by norm_num,
    Nat.testBit_two_pow_sub_one,
    Nat.testBit_two_pow_of_ne (fun h => hj h.symm), Bool.xor_false]
  by_cases hj8 : j < 8
  · simp [hj8]
  · have hbj : b.testBit j = false := by
      refine Nat.testBit_lt_two_pow ?_
      calc b < 256 := hb
      _ = 2 ^ 8 := by norm_num
      _ ≤ 2 ^ j := Nat.pow_le_pow_right (by norm_num) (by omega)
    simp [hj8, hbj]

/-- C6: patching a boolean pending write at byte `off`, bit `k` into the
read-back block buffer changes at most bit `k` of the byte at `off`:
every other bit of that byte and every byte at any other offset is
unchanged, and the buffer keeps its length. -/
theorem c6_set_bool_preserves_siblings (data : List Nat) (off k : Nat)
    (v : Bool) (hoff : off < data.length) (hk : k < 8)
    (hbytes : ∀ b ∈ data, b < 256) :
    ∃ out, setBoolInBytearray data off k v = some out ∧
      out.length = data.length ∧
      (∀ i, i ≠ off → out.getD i 0 = data.getD i 0) ∧
      (∀ j, j ≠ k →
        (out.getD off 0).testBit j = (data.getD off 0).testBit j) := by
  have hbe : data.getD off 0 = data[off] := by
    simp [List.getD_eq_getElem?_getD, List.getElem?_eq_getElem hoff]
  have hb : data.getD off 0 < 256 := by
    rw [hbe]; exact hbytes _ (List.getElem_mem hoff)
  have hble : (if v then data.getD off 0 ||| (1 <<< k)
      else data.getD off 0 &&& (255 ^^^ (1 <<< k))) ≤ 255 := by
    cases v with
    | false =>
      rw [if_neg (by simp)]
      exact le_trans Nat.and_le_left (Nat.le_of_lt_succ hb)
    | true =>
      rw [if_pos rfl, show (1 : Nat) <<< k = 2 ^ k by simp [Nat.shiftLeft_eq]]
      have h2k : 2 ^ k < 256 := by
        calc 2 ^ k ≤ 2 ^ 7 := Nat.pow_le_pow_right (by norm_num) (by omega)
        _ < 256 := by norm_num
      have hor := Nat.or_lt_two_pow (n := 8)
        (by omega : data.getD off 0 < 2 ^ 8) (by omega : 2 ^ k < 2 ^ 8)
      omega
  refine ⟨data.set off (if v then data.getD off 0 ||| (1 <<< k)
      else data.getD off 0 &&& (255 ^^^ (1 <<< k))), ?_, ?_, ?_, ?_⟩
  · simp only [setBoolInBytearray, if_pos hoff, if_pos hble]
  · exact List.length_set data off _
  · intro i hi
    simp [List.getD_eq_getElem?_getD, List.getElem?_set_ne (Ne.symm hi)]
  · intro j hj
    have hset : (data.set off (if v then data.getD off 0 ||| (1 <<< k)
        else data.getD off 0 &&& (255 ^^^ (1 <<< k)))).getD off 0 =
        (if v then data.getD off 0 ||| (1 <<< k)
         else data.getD off 0 &&& (255 ^^^ (1 <<< k))) := by
      simp [List.getD_eq_getElem?_getD, List.getElem?_set_self hoff]
    rw [hset]
    cases v with
    | true =>
      rw [if_pos rfl]
      exact testBit_or_single _ k j hj
    | false =>
      rw [if_neg (by simp)]
      exact testBit_and_clear _ k j hb hj

/-! ## C7 -/

/-- C7: a POST `/api/plc/write` whose body holds more than the batch limit
of registered tag paths is answered with HTTP 413 and `success = false`,
and `internal_write_tags` is never invoked, so no PLC I/O occurs; likewise
a body containing any unregistered tag path is rejected (HTTP 400) before
any I/O. -/
theorem c7_write_route_batch_limit (registry : List Tag)
    (data : List (String × Value)) (maxBatch : Nat) (readFn : ReadFn)
    (writeFn : WriteFn) :
    ((∀ p ∈ data.map Prod.fst,
        registry.any (fun t => t.tagpath == p) = true) →
      maxBatch < data.length →
      writeTagsRoute registry data maxBatch readFn writeFn =
        ⟨⟨false, 413⟩, false, []⟩) ∧
    ((∃ p ∈ data.map Prod.fst,
        ¬ registry.any (fun t => t.tagpath == p) = true) →
      writeTagsRoute registry data maxBatch readFn writeFn =
        ⟨⟨false, 400⟩, false, []⟩) := by
  constructor
  · intro hall hlen
    have hne : data ≠ [] := by
      intro h
      subst h
      simp at hlen
    have hinv : (data.map Prod.fst).filter
        (fun p => !(registry.any (fun t => t.tagpath == p))) = [] := by
      rw [List.filter_eq_nil_iff]
      intro p hp
      simp [hall p hp]
    unfold writeTagsRoute
    rw [if_neg hne]
    simp only [hinv]
    rw [if_neg (by simp), if_pos hlen]
  · rintro ⟨p, hp, hnp⟩
    have hne : data ≠ [] := by
      intro h
      subst h
      simp at hp
    have hinv : (data.map Prod.fst).filter
        (fun q => !(registry.any (fun t => t.tagpath == q))) ≠ [] := by
      intro h
      rw [List.filter_eq_nil_iff] at h
      have h2 := h p hp
      simp only [Bool.not_eq_true', Bool.not_eq_false] at h2
      exact hnp h2
    unfold writeTagsRoute
    rw [if_neg hne, if_pos hinv]

/-- C7 witness: with a 3-tag registry and a batch limit of 2, a 3-entry
all-registered body yields HTTP 413 with no I/O, and a body with an
unregistered path yields HTTP 400 with no I/O. -/
theorem c7_write_route_batch_limit_witness :
    writeTagsRoute
      [⟨"a", 1, 0, 2, DataType.int, none, Value.vNone, none, 0, ⟨"a", Value.vNone, []⟩⟩,
       ⟨"b", 1, 2, 2, DataType.int, none, Value.vNone, none, 0, ⟨"b", Value.vNone, []⟩⟩,
       ⟨"c", 1, 4, 2, DataType.int, none, Value.vNone, none, 0, ⟨"c", Value.vNone, []⟩⟩]
      [("a", Value.vInt 1), ("b", Value.vInt 2), ("c", Value.vInt 3)] 2
      (fun _ _ _ => some [0, 0, 0, 0, 0, 0]) (fun _ _ _ => true) =
      ⟨⟨false, 413⟩, false, []⟩ ∧
    writeTagsRoute
      [⟨"a", 1, 0, 2, DataType.int, none, Value.vNone, none, 0, ⟨"a", Value.vNone, []⟩⟩]
      [("nope", Value.vInt 1)] 100
      (fun _ _ _ => some [0, 0]) (fun _ _ _ => true) =
      ⟨⟨false, 400⟩, false, []⟩ :=
  ⟨(c7_write_route_batch_limit _ _ _ _ _).1 (by decide) (by decide),
   (c7_write_route_batch_limit _ _ _ _ _).2 ⟨"nope", by decide, by decide⟩⟩

/-- C6 witness: with buffer `[0b00000010]`, setting bit 0 true yields
`[0b00000011]`; bit 1 and the length are preserved. -/
theorem c6_set_bool_preserves_siblings_witness :
    (0 : Nat) < ([2] : List Nat).length ∧ (0 : Nat) < 8 ∧
    (∀ b ∈ ([2] : List Nat), b < 256) ∧
    ∃ out, setBoolInBytearray [2] 0 0 true = some out ∧
      out.length = ([2] : List Nat).length ∧
      (∀ i, i ≠ 0 → out.getD i 0 = ([2] : List Nat).getD i 0) ∧
      (∀ j, j ≠ 0 →
        (out.getD 0 0).testBit j = (([2] : List Nat).getD 0 0).testBit j) :=
  ⟨by decide, by decide, by decide,
   c6_set_bool_preserves_siblings [2] 0 0 true (by decide) (by decide)
     (by decide)⟩

end Gateway
